import Mathlib

/-!
Verification of the `ccm` profile manager's JSON merge/unmerge engine and
reconciliation controller, shallowly embedded from `src/profile.rs` and
`src/config.rs`.

JSON values (`serde_json::Value`) are modelled by the inductive `Json`;
`serde_json::Map` is modelled by an association list with distinct keys
(the well-formedness side condition carried as a hypothesis where needed).
The relevant filesystem state (profile files, the global current-profile
marker, the external settings file, project mappings and project-local
overlays) is modelled by the structure `CcmState`, and each operation of
`profile.rs` becomes a pure state transformer.
-/

/-- Model of `serde_json::Value`: JSON trees with objects as association
lists.  Numbers are modelled as integers (the claims under study never
depend on float-specific behaviour). -/
inductive Json where
  | null : Json
  | bool (b : Bool) : Json
  | num (n : Int) : Json
  | str (s : String) : Json
  | arr (elems : List Json) : Json
  | obj (fields : List (String × Json)) : Json

namespace Json

/-- `matches!(v, Value::Object(_))`. -/
def isObj : Json → Bool
  | .obj _ => true
  | _ => false

/-- An object value with an empty map (`Value::Object(m)` with `m.is_empty()`). -/
def isEmptyObj : Json → Bool
  | .obj [] => true
  | _ => false

end Json

/-- `Map::get`: first binding for a key in an association list. -/
def lookupKV {α : Type} : List (String × α) → String → Option α
  | [], _ => none
  | (k, v) :: rest, key => if k = key then some v else lookupKV rest key

/-- `Map::insert`: replace the binding for a key if present, else append. -/
def setKV {α : Type} : List (String × α) → String → α → List (String × α)
  | [], key, val => [(key, val)]
  | (k, v) :: rest, key, val =>
      if k = key then (key, val) :: rest else (k, v) :: setKV rest key val

/-- `Map::remove`: drop the binding for a key. -/
def eraseKV {α : Type} : List (String × α) → String → List (String × α)
  | [], _ => []
  | (k, v) :: rest, key =>
      if k = key then eraseKV rest key else (k, v) :: eraseKV rest key

/-- Keys of an association list, in order. -/
def keysOf {α : Type} (l : List (String × α)) : List String :=
  l.map Prod.fst

theorem lookupKV_setKV_self {α : Type} (l : List (String × α)) (k : String) (v : α) :
    lookupKV (setKV l k v) k = some v := by
  induction l with
  | nil => simp [setKV, lookupKV]
  | cons hd tl ih =>
    obtain ⟨k0, v0⟩ := hd
    by_cases h : k0 = k
    · simp [setKV, h, lookupKV]
    · simp [setKV, h, lookupKV, ih]

theorem lookupKV_setKV_ne {α : Type} (l : List (String × α)) (k k' : String) (v : α)
    (h : k ≠ k') : lookupKV (setKV l k v) k' = lookupKV l k' := by
  induction l with
  | nil => simp [setKV, lookupKV, h]
  | cons hd tl ih =>
    obtain ⟨k0, v0⟩ := hd
    by_cases h0 : k0 = k
    · subst h0
      simp [setKV, lookupKV, h]
    · simp [setKV, h0, lookupKV, ih]

theorem lookupKV_eraseKV_self {α : Type} (l : List (String × α)) (k : String) :
    lookupKV (eraseKV l k) k = none := by
  induction l with
  | nil => simp [eraseKV, lookupKV]
  | cons hd tl ih =>
    obtain ⟨k0, v0⟩ := hd
    by_cases h : k0 = k
    · simpa [eraseKV, h] using ih
    · simpa [eraseKV, h, lookupKV] using ih

theorem lookupKV_eraseKV_ne {α : Type} (l : List (String × α)) (k k' : String)
    (h : k ≠ k') : lookupKV (eraseKV l k) k' = lookupKV l k' := by
  induction l with
  | nil => simp [eraseKV, lookupKV]
  | cons hd tl ih =>
    obtain ⟨k0, v0⟩ := hd
    by_cases h0 : k0 = k
    · subst h0
      simpa [eraseKV, lookupKV, h] using ih
    · simp [eraseKV, h0, lookupKV, ih]

theorem lookupKV_append {α : Type} (l1 l2 : List (String × α)) (k : String) :
    lookupKV (l1 ++ l2) k = ((lookupKV l1 k).or (lookupKV l2 k)) := by
  induction l1 with
  | nil => simp [lookupKV]
  | cons hd tl ih =>
    obtain ⟨k0, v0⟩ := hd
    by_cases h : k0 = k
    · simp [lookupKV, h]
    · simp [lookupKV, h, ih]

theorem lookupKV_eq_none_of_not_mem_keys {α : Type} (l : List (String × α)) (k : String)
    (h : k ∉ keysOf l) : lookupKV l k = none := by
  induction l with
  | nil => simp [lookupKV]
  | cons hd tl ih =>
    obtain ⟨k0, v0⟩ := hd
    simp only [keysOf, List.map_cons, List.mem_cons] at h
    push_neg at h
    have hne : k0 ≠ k := Ne.symm h.1
    simp [lookupKV, hne, ih (by simpa [keysOf] using h.2)]

theorem mem_keys_of_lookupKV_isSome {α : Type} (l : List (String × α)) (k : String)
    (h : (lookupKV l k).isSome) : k ∈ keysOf l := by
  by_contra hc
  rw [lookupKV_eq_none_of_not_mem_keys l k hc] at h
  simp at h

/-- A nonempty association list always resolves its head key. -/
theorem eq_nil_of_lookupKV_eq_none {α : Type} (l : List (String × α))
    (h : ∀ k, lookupKV l k = none) : l = [] := by
  cases l with
  | nil => rfl
  | cons hd tl =>
    obtain ⟨k0, v0⟩ := hd
    have := h k0
    simp [lookupKV] at this

/-! ### The merge engine (`merge_json` in `src/profile.rs`)

`merge_json(base, overlay)` mutates `base` in place; the model returns the
final value.  `mergeFields` is the loop over the overlay map's entries. -/

mutual

/-- Model of `merge_json` (`src/profile.rs` lines 313-334): when both sides
are objects, fold the overlay's entries into the base map; otherwise the
overlay replaces the base. -/
def merge_json : Json → Json → Json
  | .obj baseMap, .obj overlayMap => .obj (mergeFields baseMap overlayMap)
  | _, overlay => overlay
termination_by _ overlay => sizeOf overlay

/-- The `for (key, overlay_value) in overlay_map` loop of `merge_json`:
a present key is merged recursively in place, an absent key is inserted. -/
def mergeFields : List (String × Json) → List (String × Json) → List (String × Json)
  | baseMap, [] => baseMap
  | baseMap, (key, overlayValue) :: rest =>
      match lookupKV baseMap key with
      | some baseValue => mergeFields (setKV baseMap key (merge_json baseValue overlayValue)) rest
      | none => mergeFields (baseMap ++ [(key, overlayValue)]) rest
termination_by _ overlayMap => sizeOf overlayMap
decreasing_by
  all_goals simp_wf
  all_goals omega

end

/-- Per-key behaviour of the overlay loop: a key found in both maps is
merged with `merge_json`, a key only in the base is preserved, a key only
in the overlay is inserted. -/
theorem lookupKV_mergeFields (om : List (String × Json)) (bm : List (String × Json))
    (hnd : (keysOf om).Nodup) (k : String) :
    lookupKV (mergeFields bm om) k =
      match lookupKV om k with
      | none => lookupKV bm k
      | some ov =>
        match lookupKV bm k with
        | none => some ov
        | some bv => some (merge_json bv ov) := by
  induction om generalizing bm with
  | nil => simp [mergeFields, lookupKV]
  | cons hd rest ih =>
    obtain ⟨k0, ov0⟩ := hd
    have hcons := List.nodup_cons.mp
      (show (k0 :: keysOf rest).Nodup by simpa only [keysOf, List.map_cons] using hnd)
    have hk0 : k0 ∉ keysOf rest := hcons.1
    have hnd' : (keysOf rest).Nodup := hcons.2
    have hrest0 : lookupKV rest k0 = none := lookupKV_eq_none_of_not_mem_keys _ _ hk0
    cases hbase : lookupKV bm k0 with
    | some bv0 =>
      have hstep : mergeFields bm ((k0, ov0) :: rest) =
          mergeFields (setKV bm k0 (merge_json bv0 ov0)) rest := by
        simp [mergeFields, hbase]
      rw [hstep, ih _ hnd']
      by_cases hkk : k0 = k
      · subst hkk
        simp [lookupKV, hrest0, lookupKV_setKV_self, hbase]
      · rw [lookupKV_setKV_ne _ _ _ _ hkk]
        simp [lookupKV, hkk]
    | none =>
      have hstep : mergeFields bm ((k0, ov0) :: rest) =
          mergeFields (bm ++ [(k0, ov0)]) rest := by
        simp [mergeFields, hbase]
      rw [hstep, ih _ hnd']
      by_cases hkk : k0 = k
      · subst hkk
        simp [lookupKV, hrest0, lookupKV_append, hbase]
      · have h1 : lookupKV [(k0, ov0)] k = none := by simp [lookupKV, hkk]
        simp only [lookupKV_append, h1, Option.or_none]
        simp [lookupKV, hkk]

example : merge_json (Json.obj [("a", Json.num 1), ("k", Json.str "v")])
    (Json.obj [("a", Json.num 2), ("b", Json.null)])
    = Json.obj [("a", Json.num 2), ("k", Json.str "v"), ("b", Json.null)] := by
  simp [merge_json, mergeFields, lookupKV, setKV]

example : merge_json (Json.obj [("a", Json.arr [Json.num 1])])
    (Json.obj [("a", Json.arr [Json.num 2, Json.num 3])])
    = Json.obj [("a", Json.arr [Json.num 2, Json.num 3])] := by
  simp [merge_json, mergeFields, lookupKV, setKV]

/-- C1: `merge_json` merges recursively when both entries are objects,
otherwise the overlay entry replaces the base entry wholesale (also at the
top level, including arrays, scalars and null); keys present only in the
base survive unchanged and keys present only in the overlay are added. -/
theorem merge_json_spec :
    (∀ base overlay : Json, (base.isObj && overlay.isObj) = false →
        merge_json base overlay = overlay) ∧
    (∀ bm om : List (String × Json),
        merge_json (.obj bm) (.obj om) = .obj (mergeFields bm om)) ∧
    (∀ bm om : List (String × Json), ∀ k : String, (keysOf om).Nodup →
      lookupKV (mergeFields bm om) k =
        match lookupKV bm k, lookupKV om k with
        | some (.obj b2), some (.obj o2) => some (.obj (mergeFields b2 o2))
        | some _, some ov => some ov
        | some bv, none => some bv
        | none, some ov => some ov
        | none, none => none) := by
  refine ⟨?_, ?_, ?_⟩
  · intro base overlay h
    cases base <;> cases overlay <;> simp_all [merge_json, Json.isObj]
  · intro bm om
    simp [merge_json]
  · intro bm om k hnd
    rw [lookupKV_mergeFields om bm hnd k]
    cases hb : lookupKV bm k with
    | none => cases ho : lookupKV om k <;> simp
    | some bv =>
      cases ho : lookupKV om k with
      | none => simp
      | some ov => cases bv <;> cases ov <;> simp [merge_json]

/-- Witness for C1 at concrete inputs: the nested key "b" is merged
recursively, and a non-object overlay replaces the base wholesale. -/
theorem merge_json_spec_witness :
    lookupKV (mergeFields [("a", Json.num 1), ("b", Json.obj [("x", Json.num 1)])]
        [("b", Json.obj [("y", Json.num 2)]), ("c", Json.str "s")]) "b"
      = some (Json.obj (mergeFields [("x", Json.num 1)] [("y", Json.num 2)])) ∧
    merge_json (Json.arr [Json.num 1]) (Json.num 3) = Json.num 3 := by
  constructor
  · have h := merge_json_spec.2.2 [("a", Json.num 1), ("b", Json.obj [("x", Json.num 1)])]
      [("b", Json.obj [("y", Json.num 2)]), ("c", Json.str "s")] "b" (by decide)
    rw [h]
    simp [lookupKV]
  · exact merge_json_spec.1 (Json.arr [Json.num 1]) (Json.num 3) (by simp [Json.isObj])

/-! ### The unmerge engine (`remove_json_keys` in `src/profile.rs`)

The Rust function runs two passes over the overlay map: the first removes
every key present in both maps whose two values are not both objects; the
second recurses into keys whose two values are both objects and removes
the key if the nested object became empty. -/

/-- First pass of `remove_json_keys` (`keys_to_remove` and the following
removal loop): keep a base entry iff its key is absent from the overlay or
both values are objects. -/
def removePhase1 (bm om : List (String × Json)) : List (String × Json) :=
  bm.filter fun kv =>
    match lookupKV om kv.1 with
    | some ov => kv.2.isObj && ov.isObj
    | none => true

mutual

/-- Model of `remove_json_keys` (`src/profile.rs` lines 670-710): when both
sides are objects, run the two passes; otherwise the base is unchanged. -/
def remove_json_keys : Json → Json → Json
  | .obj bm, .obj om => .obj (removePhase2 (removePhase1 bm om) om)
  | base, _ => base
termination_by _ overlay => sizeOf overlay

/-- Second pass of `remove_json_keys` (the `for (key, overlay_value) in
overlay_map` loop): recurse into keys whose two values are both objects
and drop the key if the nested object became empty. -/
def removePhase2 : List (String × Json) → List (String × Json) → List (String × Json)
  | bm, [] => bm
  | bm, (key, overlayValue) :: rest =>
      match lookupKV bm key with
      | some baseValue =>
          if baseValue.isObj && overlayValue.isObj then
            let reduced := remove_json_keys baseValue overlayValue
            if reduced.isEmptyObj then removePhase2 (eraseKV bm key) rest
            else removePhase2 (setKV bm key reduced) rest
          else removePhase2 bm rest
      | none => removePhase2 bm rest
termination_by _ om => sizeOf om
decreasing_by
  all_goals simp_wf
  all_goals omega

end

/-- Per-key behaviour of the first pass. -/
theorem lookupKV_removePhase1 (bm om : List (String × Json)) (k : String)
    (hnd : (keysOf bm).Nodup) :
    lookupKV (removePhase1 bm om) k =
      match lookupKV bm k with
      | none => none
      | some bv =>
        match lookupKV om k with
        | none => some bv
        | some ov => if bv.isObj && ov.isObj then some bv else none := by
  induction bm with
  | nil => simp [removePhase1, lookupKV]
  | cons hd tl ih =>
    obtain ⟨k0, bv0⟩ := hd
    have hcons := List.nodup_cons.mp
      (show (k0 :: keysOf tl).Nodup by simpa only [keysOf, List.map_cons] using hnd)
    have ih' := ih hcons.2
    by_cases hkk : k0 = k
    · subst hkk
      cases ho : lookupKV om k0 with
      | none =>
        simp [removePhase1, List.filter_cons, ho, lookupKV]
      | some ov0 =>
        by_cases hobj : (bv0.isObj && ov0.isObj) = true
        · simp [removePhase1, List.filter_cons, ho, hobj, lookupKV]
        · have hnone : lookupKV tl k0 = none :=
            lookupKV_eq_none_of_not_mem_keys _ _ hcons.1
          have := ih'
          simp only [removePhase1] at this
          simp [removePhase1, List.filter_cons, ho, hobj, lookupKV, this, hnone]
    · cases hfilter : (match lookupKV om k0 with
        | some ov => bv0.isObj && ov.isObj
        | none => true) with
      | true =>
        simp only [removePhase1, List.filter_cons]
        rw [show (match lookupKV om (k0, bv0).1 with
          | some ov => (k0, bv0).2.isObj && ov.isObj
          | none => true) = true from hfilter]
        simp only [removePhase1] at ih'
        simp [lookupKV, hkk, ih']
      | false =>
        simp only [removePhase1, List.filter_cons]
        rw [show (match lookupKV om (k0, bv0).1 with
          | some ov => (k0, bv0).2.isObj && ov.isObj
          | none => true) = false from hfilter]
        simp only [removePhase1] at ih'
        simp [lookupKV, hkk, ih']

/-- Per-key behaviour of the second pass. -/
theorem lookupKV_removePhase2 (om : List (String × Json)) (bm : List (String × Json))
    (hnd : (keysOf om).Nodup) (k : String) :
    lookupKV (removePhase2 bm om) k =
      match lookupKV om k with
      | none => lookupKV bm k
      | some ov =>
        match lookupKV bm k with
        | none => none
        | some bv =>
          if bv.isObj && ov.isObj then
            (if (remove_json_keys bv ov).isEmptyObj then none
             else some (remove_json_keys bv ov))
          else some bv := by
  induction om generalizing bm with
  | nil => simp [removePhase2, lookupKV]
  | cons hd rest ih =>
    obtain ⟨k0, ov0⟩ := hd
    have hcons := List.nodup_cons.mp
      (show (k0 :: keysOf rest).Nodup by simpa only [keysOf, List.map_cons] using hnd)
    have hnd' : (keysOf rest).Nodup := hcons.2
    have hrest0 : lookupKV rest k0 = none :=
      lookupKV_eq_none_of_not_mem_keys _ _ hcons.1
    cases hbase : lookupKV bm k0 with
    | none =>
      have hstep : removePhase2 bm ((k0, ov0) :: rest) = removePhase2 bm rest := by
        simp [removePhase2, hbase]
      rw [hstep, ih _ hnd']
      by_cases hkk : k0 = k
      · subst hkk
        simp [lookupKV, hrest0, hbase]
      · simp [lookupKV, hkk]
    | some bv0 =>
      by_cases hobj : (bv0.isObj && ov0.isObj) = true
      · cases hemp : (remove_json_keys bv0 ov0).isEmptyObj with
        | true =>
          have hstep : removePhase2 bm ((k0, ov0) :: rest) =
              removePhase2 (eraseKV bm k0) rest := by
            simp [removePhase2, hbase, hobj, hemp]
          rw [hstep, ih _ hnd']
          by_cases hkk : k0 = k
          · subst hkk
            simp [lookupKV, hrest0, lookupKV_eraseKV_self, hbase, hobj, hemp]
          · rw [lookupKV_eraseKV_ne _ _ _ hkk]
            simp [lookupKV, hkk]
        | false =>
          have hstep : removePhase2 bm ((k0, ov0) :: rest) =
              removePhase2 (setKV bm k0 (remove_json_keys bv0 ov0)) rest := by
            simp [removePhase2, hbase, hobj, hemp]
          rw [hstep, ih _ hnd']
          by_cases hkk : k0 = k
          · subst hkk
            simp [lookupKV, hrest0, lookupKV_setKV_self, hbase, hobj, hemp]
          · rw [lookupKV_setKV_ne _ _ _ _ hkk]
            simp [lookupKV, hkk]
      · have hstep : removePhase2 bm ((k0, ov0) :: rest) = removePhase2 bm rest := by
          simp [removePhase2, hbase, hobj]
        rw [hstep, ih _ hnd']
        by_cases hkk : k0 = k
        · subst hkk
          simp [lookupKV, hrest0, hbase, hobj]
        · simp [lookupKV, hkk]

example : remove_json_keys
    (Json.obj [("keep", Json.num 1), ("x", Json.num 2),
               ("o", Json.obj [("a", Json.num 1), ("b", Json.num 2)])])
    (Json.obj [("x", Json.num 9), ("o", Json.obj [("a", Json.num 0)])])
    = Json.obj [("keep", Json.num 1), ("o", Json.obj [("b", Json.num 2)])] := by
  simp [remove_json_keys, removePhase1, removePhase2, lookupKV, setKV, eraseKV,
    Json.isObj, Json.isEmptyObj, List.filter_cons]

example : remove_json_keys
    (Json.obj [("o", Json.obj [("a", Json.num 1)]), ("q", Json.null)])
    (Json.obj [("o", Json.obj [("a", Json.num 0)])])
    = Json.obj [("q", Json.null)] := by
  simp [remove_json_keys, removePhase1, removePhase2, lookupKV, setKV, eraseKV,
    Json.isObj, Json.isEmptyObj, List.filter_cons]

/-- C2: `remove_json_keys(base, overlay)` removes from `base` every key
that also exists in `overlay` except when both sides hold objects for that
key, in which case it recurses and removes the key afterwards only when
the nested object has become empty.  Keys absent from the overlay, and a
non-object top level, are left untouched. -/
theorem remove_json_keys_spec :
    (∀ base overlay : Json, (base.isObj && overlay.isObj) = false →
        remove_json_keys base overlay = base) ∧
    (∀ bm om : List (String × Json),
        remove_json_keys (.obj bm) (.obj om)
          = .obj (removePhase2 (removePhase1 bm om) om)) ∧
    (∀ bm om : List (String × Json), ∀ k : String,
      (keysOf bm).Nodup → (keysOf om).Nodup →
      lookupKV (removePhase2 (removePhase1 bm om) om) k =
        match lookupKV bm k, lookupKV om k with
        | some bv, some ov =>
            if bv.isObj && ov.isObj then
              (if (remove_json_keys bv ov).isEmptyObj then none
               else some (remove_json_keys bv ov))
            else none
        | some bv, none => some bv
        | none, _ => none) := by
  refine ⟨?_, ?_, ?_⟩
  · intro base overlay h
    cases base <;> cases overlay <;> simp_all [remove_json_keys, Json.isObj]
  · intro bm om
    simp [remove_json_keys]
  · intro bm om k hndb hndo
    rw [lookupKV_removePhase2 om _ hndo k]
    have h1 := lookupKV_removePhase1 bm om k hndb
    cases hb : lookupKV bm k with
    | none =>
      rw [hb] at h1
      cases ho : lookupKV om k <;> rw [ho] at h1 <;> simp [h1]
    | some bv =>
      rw [hb] at h1
      cases ho : lookupKV om k with
      | none =>
        rw [ho] at h1
        simp [h1]
      | some ov =>
        rw [ho] at h1
        simp at h1
        by_cases hobj : bv.isObj = true ∧ ov.isObj = true
        · simp [h1, hobj]
        · simp [h1, hobj]

/-- Witness for C2 at concrete inputs: a matched leaf key is removed, a key
absent from the overlay survives, and a matched pair of nested objects is
reduced recursively and kept because it did not become empty. -/
theorem remove_json_keys_spec_witness :
    lookupKV (removePhase2 (removePhase1
        [("keep", Json.num 1), ("x", Json.num 2),
         ("o", Json.obj [("a", Json.num 1), ("b", Json.num 2)])]
        [("x", Json.num 9), ("o", Json.obj [("a", Json.num 0)])])
        [("x", Json.num 9), ("o", Json.obj [("a", Json.num 0)])]) "x" = none ∧
    remove_json_keys (Json.num 5) (Json.obj [("x", Json.num 9)]) = Json.num 5 := by
  constructor
  · have h := remove_json_keys_spec.2.2
      [("keep", Json.num 1), ("x", Json.num 2),
       ("o", Json.obj [("a", Json.num 1), ("b", Json.num 2)])]
      [("x", Json.num 9), ("o", Json.obj [("a", Json.num 0)])] "x"
      (by decide) (by decide)
    rw [h]
    simp [lookupKV, Json.isObj]
  · exact remove_json_keys_spec.1 (Json.num 5) (Json.obj [("x", Json.num 9)])
      (by simp [Json.isObj])

/-! ### Well-formed JSON values

`serde_json::Map` keys are unique at every nesting level; the boolean
predicate `wfB` carries that invariant for the model's association lists. -/

/-- Duplicate-freedom of a key list, as a boolean. -/
def nodupKeysB : List String → Bool
  | [] => true
  | k :: rest => decide (k ∉ rest) && nodupKeysB rest

theorem nodupKeysB_iff (l : List String) : nodupKeysB l = true ↔ l.Nodup := by
  induction l with
  | nil => simp [nodupKeysB]
  | cons hd tl ih =>
    simp [nodupKeysB, ih]

mutual

/-- Every object in the tree has duplicate-free keys. -/
def wfB : Json → Bool
  | .null => true
  | .bool _ => true
  | .num _ => true
  | .str _ => true
  | .arr xs => wfBList xs
  | .obj fs => nodupKeysB (keysOf fs) && wfBFields fs

def wfBList : List Json → Bool
  | [] => true
  | x :: xs => wfB x && wfBList xs

def wfBFields : List (String × Json) → Bool
  | [] => true
  | kv :: rest => wfB kv.2 && wfBFields rest

end

theorem wfB_obj_nodup (fs : List (String × Json)) (h : wfB (.obj fs) = true) :
    (keysOf fs).Nodup := by
  simp only [wfB, Bool.and_eq_true] at h
  exact (nodupKeysB_iff _).mp h.1

theorem wfBFields_lookupKV (fs : List (String × Json)) (k : String) (v : Json)
    (hwf : wfBFields fs = true) (h : lookupKV fs k = some v) : wfB v = true := by
  induction fs with
  | nil => simp [lookupKV] at h
  | cons hd tl ih =>
    obtain ⟨k0, v0⟩ := hd
    simp only [wfBFields, Bool.and_eq_true] at hwf
    by_cases hkk : k0 = k
    · simp [lookupKV, hkk] at h
      exact h ▸ hwf.1
    · simp [lookupKV, hkk] at h
      exact ih hwf.2 h

theorem wfB_lookupKV (fs : List (String × Json)) (k : String) (v : Json)
    (hwf : wfB (.obj fs) = true) (h : lookupKV fs k = some v) : wfB v = true := by
  simp only [wfB, Bool.and_eq_true] at hwf
  exact wfBFields_lookupKV fs k v hwf.2 h

theorem sizeOf_lookupKV (fs : List (String × Json)) (k : String) (v : Json)
    (h : lookupKV fs k = some v) : sizeOf v < sizeOf fs := by
  induction fs with
  | nil => simp [lookupKV] at h
  | cons hd tl ih =>
    obtain ⟨k0, v0⟩ := hd
    by_cases hkk : k0 = k
    · simp [lookupKV, hkk] at h
      subst h
      simp
      omega
    · simp [lookupKV, hkk] at h
      have := ih h
      simp
      omega

theorem lookupKV_isSome_of_mem_keys {α : Type} (l : List (String × α)) (k : String)
    (h : k ∈ keysOf l) : (lookupKV l k).isSome := by
  induction l with
  | nil => simp [keysOf] at h
  | cons hd tl ih =>
    obtain ⟨k0, v0⟩ := hd
    by_cases hkk : k0 = k
    · simp [lookupKV, hkk]
    · have : k ∈ keysOf tl := by
        simp only [keysOf, List.map_cons, List.mem_cons] at h
        rcases h with h | h
        · exact absurd h.symm hkk
        · simpa [keysOf] using h
      simp [lookupKV, hkk, ih this]

theorem keysOf_setKV_of_lookup {α : Type} (l : List (String × α)) (k : String) (v w : α)
    (h : lookupKV l k = some w) : keysOf (setKV l k v) = keysOf l := by
  induction l with
  | nil => simp [lookupKV] at h
  | cons hd tl ih =>
    obtain ⟨k0, v0⟩ := hd
    by_cases hkk : k0 = k
    · subst hkk
      simp [setKV, keysOf]
    · simp only [lookupKV, hkk, if_neg (by exact hkk)] at h
      simp [setKV, hkk, keysOf] at ih ⊢
      exact ih h

theorem nodup_keys_mergeFields (om : List (String × Json)) :
    ∀ bm : List (String × Json), (keysOf bm).Nodup →
      (keysOf (mergeFields bm om)).Nodup := by
  induction om with
  | nil =>
    intro bm h
    simpa [mergeFields] using h
  | cons hd rest ih =>
    intro bm h
    obtain ⟨k0, ov0⟩ := hd
    cases hb : lookupKV bm k0 with
    | some bv0 =>
      have hstep : mergeFields bm ((k0, ov0) :: rest) =
          mergeFields (setKV bm k0 (merge_json bv0 ov0)) rest := by
        simp [mergeFields, hb]
      rw [hstep]
      apply ih
      rw [keysOf_setKV_of_lookup _ _ _ _ hb]
      exact h
    | none =>
      have hstep : mergeFields bm ((k0, ov0) :: rest) =
          mergeFields (bm ++ [(k0, ov0)]) rest := by
        simp [mergeFields, hb]
      rw [hstep]
      apply ih
      have hk0 : k0 ∉ keysOf bm := by
        intro hmem
        have := lookupKV_isSome_of_mem_keys bm k0 hmem
        rw [hb] at this
        simp at this
      rw [show keysOf (bm ++ [(k0, ov0)]) = keysOf bm ++ [k0] from by simp [keysOf]]
      rw [List.nodup_append]
      refine ⟨h, List.nodup_singleton _, ?_⟩
      intro a ha hmem
      simp only [List.mem_singleton] at hmem
      subst hmem
      exact hk0 ha

/-- Subtracting a well-formed object from itself empties it: every leaf
key is removed in the first pass, and every nested object is emptied
recursively and then removed in the second pass. -/
theorem removeFields_self_sized (n : Nat) :
    ∀ fs : List (String × Json), sizeOf fs ≤ n → wfB (.obj fs) = true →
      removePhase2 (removePhase1 fs fs) fs = [] := by
  induction n with
  | zero =>
    intro fs hsz _
    exfalso
    cases fs <;> simp at hsz
  | succ n ih =>
    intro fs hsz hwf
    have hnd := wfB_obj_nodup fs hwf
    apply eq_nil_of_lookupKV_eq_none
    intro k
    rw [lookupKV_removePhase2 fs _ hnd k]
    have h1 := lookupKV_removePhase1 fs fs k hnd
    cases hb : lookupKV fs k with
    | none =>
      rw [hb] at h1
      simp at h1
      simp [hb, h1]
    | some bv =>
      rw [hb] at h1
      simp at h1
      cases bv with
      | obj sub =>
        simp [Json.isObj] at h1
        have hwfsub : wfB (.obj sub) = true := wfB_lookupKV fs k _ hwf hb
        have hszsub : sizeOf sub ≤ n := by
          have h2 := sizeOf_lookupKV fs k _ hb
          have h3 : sizeOf sub < sizeOf (Json.obj sub) := by simp
          omega
        have hrec := ih sub hszsub hwfsub
        simp [hb, h1, remove_json_keys, hrec, Json.isObj, Json.isEmptyObj]
      | null =>
        simp [Json.isObj] at h1
        simp [hb, h1, Json.isObj]
      | bool b =>
        simp [Json.isObj] at h1
        simp [hb, h1, Json.isObj]
      | num m =>
        simp [Json.isObj] at h1
        simp [hb, h1, Json.isObj]
      | str s =>
        simp [Json.isObj] at h1
        simp [hb, h1, Json.isObj]
      | arr xs =>
        simp [Json.isObj] at h1
        simp [hb, h1, Json.isObj]

/-- `remove_json_keys(x, x)` on a well-formed object yields the empty object. -/
theorem remove_json_keys_self (fs : List (String × Json)) (hwf : wfB (.obj fs) = true) :
    remove_json_keys (.obj fs) (.obj fs) = .obj [] := by
  rw [show remove_json_keys (Json.obj fs) (Json.obj fs)
    = .obj (removePhase2 (removePhase1 fs fs) fs) from by simp [remove_json_keys]]
  rw [removeFields_self_sized (sizeOf fs) fs le_rfl hwf]

theorem exists_obj_of_isObj (v : Json) (h : v.isObj = true) :
    ∃ sub, v = .obj sub := by
  cases v with
  | obj fs => exact ⟨fs, rfl⟩
  | null => simp [Json.isObj] at h
  | bool b => simp [Json.isObj] at h
  | num n => simp [Json.isObj] at h
  | str s => simp [Json.isObj] at h
  | arr xs => simp [Json.isObj] at h

theorem merge_json_replaceRule (av ov : Json) (h : (av.isObj && ov.isObj) = false) :
    merge_json av ov = ov := by
  cases av <;> cases ov <;> simp_all [merge_json, Json.isObj]

/-- C3: subtracting `B` from `merge(A, B)` removes every leaf key that came
from `B`; a nested object fully covered by `B` is emptied and removed (in
particular `remove_json_keys(x, x)` on a well-formed object gives the empty
object); a nested object where both `A` and `B` hold objects keeps its
non-`B` siblings and is kept iff the recursive subtraction leaves it
nonempty; keys of `A` untouched by `B` survive unchanged. -/
theorem subtract_merge_spec :
    (∀ om : List (String × Json), wfB (.obj om) = true →
        remove_json_keys (.obj om) (.obj om) = .obj []) ∧
    (∀ am bm : List (String × Json),
        remove_json_keys (merge_json (.obj am) (.obj bm)) (.obj bm)
          = .obj (removePhase2 (removePhase1 (mergeFields am bm) bm) bm)) ∧
    (∀ am bm : List (String × Json), ∀ k : String,
      (keysOf am).Nodup → wfB (.obj bm) = true →
      lookupKV (removePhase2 (removePhase1 (mergeFields am bm) bm) bm) k =
        match lookupKV am k, lookupKV bm k with
        | some av, none => some av
        | none, none => none
        | none, some _ => none
        | some av, some ov =>
            if av.isObj && ov.isObj then
              (if (remove_json_keys (merge_json av ov) ov).isEmptyObj then none
               else some (remove_json_keys (merge_json av ov) ov))
            else none) := by
  refine ⟨?_, ?_, ?_⟩
  · intro om hwf
    exact remove_json_keys_self om hwf
  · intro am bm
    simp [merge_json, remove_json_keys]
  · intro am bm k hnda hwfb
    have hndb := wfB_obj_nodup bm hwfb
    have hndm : (keysOf (mergeFields am bm)).Nodup := nodup_keys_mergeFields bm am hnda
    rw [lookupKV_removePhase2 bm _ hndb k]
    have h1 := lookupKV_removePhase1 (mergeFields am bm) bm k hndm
    have hm := lookupKV_mergeFields bm am hndb k
    cases ho : lookupKV bm k with
    | none =>
      rw [ho] at hm h1
      simp at hm
      rw [hm] at h1
      cases ha : lookupKV am k with
      | none =>
        rw [ha] at h1
        simp at h1
        simp [ha, h1]
      | some av =>
        rw [ha] at h1
        simp at h1
        simp [ha, h1]
    | some ov =>
      rw [ho] at hm h1
      have hwfov : wfB ov = true := wfB_lookupKV bm k ov hwfb ho
      cases ha : lookupKV am k with
      | none =>
        rw [ha] at hm
        simp at hm
        rw [hm] at h1
        simp at h1
        by_cases hoobj : ov.isObj = true
        · obtain ⟨o2, rfl⟩ := exists_obj_of_isObj ov hoobj
          have hself := remove_json_keys_self o2 hwfov
          simp [Json.isObj] at h1
          simp [ha, h1, hself, Json.isEmptyObj, Json.isObj]
        · simp [hoobj] at h1
          simp [ha, h1]
      | some av =>
        rw [ha] at hm
        simp at hm
        rw [hm] at h1
        simp at h1
        by_cases hoobj : ov.isObj = true
        · by_cases haobj : av.isObj = true
          · obtain ⟨a2, rfl⟩ := exists_obj_of_isObj av haobj
            obtain ⟨o2, rfl⟩ := exists_obj_of_isObj ov hoobj
            simp only [merge_json, Json.isObj, Bool.and_self, if_pos] at h1
            simp [ha, h1, merge_json, Json.isObj]
          · have hmerge : merge_json av ov = ov :=
              merge_json_replaceRule av ov (by simp [haobj])
            obtain ⟨o2, rfl⟩ := exists_obj_of_isObj ov hoobj
            have hself := remove_json_keys_self o2 hwfov
            rw [hmerge] at h1
            simp [Json.isObj] at h1
            simp [ha, h1, haobj]
            simp [hself, Json.isObj, Json.isEmptyObj]
        · have hmerge : merge_json av ov = ov :=
            merge_json_replaceRule av ov (by simp [hoobj])
          rw [hmerge] at h1
          simp [hoobj] at h1
          simp [ha, h1, hoobj]

/-- Witness for C3 at concrete inputs: the leaf key "b" contributed by the
overlay `B` is removed again by the subtraction. -/
theorem subtract_merge_spec_witness :
    lookupKV (removePhase2 (removePhase1
        (mergeFields
          [("a", Json.num 1), ("shared", Json.obj [("x", Json.num 1), ("keep", Json.num 2)])]
          [("b", Json.num 9), ("shared", Json.obj [("x", Json.num 5)])])
        [("b", Json.num 9), ("shared", Json.obj [("x", Json.num 5)])])
        [("b", Json.num 9), ("shared", Json.obj [("x", Json.num 5)])]) "b" = none := by
  have h := subtract_merge_spec.2.2
    [("a", Json.num 1), ("shared", Json.obj [("x", Json.num 1), ("keep", Json.num 2)])]
    [("b", Json.num 9), ("shared", Json.obj [("x", Json.num 5)])] "b"
    (by decide) (by simp [wfB, wfBFields, nodupKeysB, keysOf])
  rw [h]
  simp [lookupKV]

/-! ### Structural JSON equality (`serde_json::Value::eq`)

`PartialEq` on `serde_json::Value` compares scalars by value, arrays
pointwise in order, and object maps as key-value sets (order-independent,
since the maps are keyed).  `jsonEqSub xs ys` checks that every binding of
`xs` is matched in `ys`. -/

mutual

def jsonEq : Json → Json → Bool
  | .null, .null => true
  | .bool a, .bool b2 => a == b2
  | .num a, .num b2 => a == b2
  | .str a, .str b2 => a == b2
  | .arr xs, .arr ys => jsonEqList xs ys
  | .obj xs, .obj ys => jsonEqSub xs ys && jsonEqSub ys xs
  | _, _ => false
termination_by a b2 => sizeOf a + sizeOf b2

def jsonEqList : List Json → List Json → Bool
  | [], [] => true
  | x :: xs, y :: ys => jsonEq x y && jsonEqList xs ys
  | _, _ => false
termination_by xs ys => sizeOf xs + sizeOf ys

def jsonEqSub : List (String × Json) → List (String × Json) → Bool
  | [], _ => true
  | (k, v) :: rest, ys =>
      (match hw : lookupKV ys k with
       | some w => jsonEq v w
       | none => false) && jsonEqSub rest ys
termination_by xs ys => sizeOf xs + sizeOf ys
decreasing_by
  all_goals simp_wf
  all_goals
    have hlt := sizeOf_lookupKV ys k w hw
    omega

end

theorem wfBList_mem (xs : List Json) (hwf : wfBList xs = true) :
    ∀ x ∈ xs, wfB x = true := by
  induction xs with
  | nil => simp
  | cons hd tl ih =>
    simp only [wfBList, Bool.and_eq_true] at hwf
    intro x hx
    rcases List.mem_cons.mp hx with h | h
    · exact h ▸ hwf.1
    · exact ih hwf.2 x h

theorem lookupKV_of_mem_nodup {α : Type} (l : List (String × α)) (k : String) (v : α)
    (hmem : (k, v) ∈ l) (hnd : (keysOf l).Nodup) : lookupKV l k = some v := by
  induction l with
  | nil => simp at hmem
  | cons hd tl ih =>
    obtain ⟨k0, v0⟩ := hd
    have hcons := List.nodup_cons.mp
      (show (k0 :: keysOf tl).Nodup by simpa only [keysOf, List.map_cons] using hnd)
    rcases List.mem_cons.mp hmem with h | h
    · obtain ⟨h1, h2⟩ := Prod.mk.injEq .. ▸ h
      cases h
      simp [lookupKV]
    · have hk : k0 ≠ k := by
        intro he
        subst he
        exact hcons.1 (by simpa [keysOf] using List.mem_map_of_mem Prod.fst h)
      simp [lookupKV, hk, ih h hcons.2]

theorem jsonEqSub_of_matched (sub ys : List (String × Json))
    (h : ∀ kv ∈ sub, ∃ w, lookupKV ys kv.1 = some w ∧ jsonEq kv.2 w = true) :
    jsonEqSub sub ys = true := by
  induction sub with
  | nil => simp [jsonEqSub]
  | cons hd rest ih =>
    obtain ⟨k, v⟩ := hd
    obtain ⟨w, hw, heq⟩ := h (k, v) (List.mem_cons_self _ _)
    have hrest := ih (fun kv hkv => h kv (List.mem_cons_of_mem _ hkv))
    simp only [jsonEqSub, Bool.and_eq_true]
    refine ⟨?_, hrest⟩
    split
    · rename_i w2 hw2
      rw [hw] at hw2
      injection hw2 with hww
      subst hww
      exact heq
    · rename_i hw2
      rw [hw] at hw2
      cases hw2

/-- `jsonEq` is reflexive on well-formed values. -/
theorem jsonEq_refl_sized (n : Nat) :
    ∀ v : Json, sizeOf v ≤ n → wfB v = true → jsonEq v v = true := by
  induction n with
  | zero =>
    intro v hsz _
    exfalso
    cases v <;> simp at hsz
  | succ n ih =>
    intro v hsz hwf
    cases v with
    | null => simp [jsonEq]
    | bool b => simp [jsonEq]
    | num m => simp [jsonEq]
    | str s => simp [jsonEq]
    | arr xs =>
      simp only [jsonEq]
      have hsz' : sizeOf xs ≤ n := by
        have : sizeOf xs < sizeOf (Json.arr xs) := by simp
        omega
      clear hsz
      induction xs with
      | nil => simp [jsonEqList]
      | cons hd tl ihl =>
        simp only [wfB, wfBList, Bool.and_eq_true] at hwf
        have hhd : jsonEq hd hd = true := by
          apply ih hd _ hwf.1
          have : sizeOf hd < sizeOf (hd :: tl) := by
            simp only [List.cons.sizeOf_spec]
            omega
          omega
        have htl : jsonEqList tl tl = true := by
          have h1 : sizeOf tl ≤ n := by
            have : sizeOf tl < sizeOf (hd :: tl) := by
              simp only [List.cons.sizeOf_spec]
              omega
            omega
          have h2 : wfB (Json.arr tl) = true := by simp [wfB]; exact hwf.2
          have := ihl (by simpa [wfB] using hwf.2) h1
          simpa [jsonEq] using this
        simp [jsonEqList, hhd, htl]
    | obj fs =>
      simp only [jsonEq]
      have hnd := wfB_obj_nodup fs hwf
      have hsub : jsonEqSub fs fs = true := by
        apply jsonEqSub_of_matched
        intro kv hkv
        refine ⟨kv.2, lookupKV_of_mem_nodup fs kv.1 kv.2 (by simpa using hkv) hnd, ?_⟩
        apply ih kv.2 _ (wfB_lookupKV fs kv.1 kv.2 hwf
          (lookupKV_of_mem_nodup fs kv.1 kv.2 (by simpa using hkv) hnd))
        have h1 : sizeOf kv.2 < sizeOf fs := by
          have := List.sizeOf_lt_of_mem hkv
          have h2 : sizeOf kv.2 < sizeOf kv := by
            obtain ⟨a, b2⟩ := kv
            simp only [Prod.mk.sizeOf_spec]
            omega
          omega
        have hb : sizeOf (Json.obj fs) = 1 + sizeOf fs := by
          simp only [Json.obj.sizeOf_spec]
        omega
      simp [hsub]

/-- Object comparison is order-independent: two well-formed objects with
identical per-key lookups compare equal. -/
theorem jsonEq_obj_ext (xs ys : List (String × Json))
    (hwfx : wfB (.obj xs) = true) (hndy : (keysOf ys).Nodup)
    (hext : ∀ k, lookupKV xs k = lookupKV ys k) :
    jsonEq (.obj xs) (.obj ys) = true := by
  have hndx := wfB_obj_nodup xs hwfx
  have hsub1 : jsonEqSub xs ys = true := by
    apply jsonEqSub_of_matched
    intro kv hkv
    have hx : lookupKV xs kv.1 = some kv.2 :=
      lookupKV_of_mem_nodup xs kv.1 kv.2 (by simpa using hkv) hndx
    refine ⟨kv.2, by rw [← hext kv.1]; exact hx, ?_⟩
    exact jsonEq_refl_sized (sizeOf kv.2) kv.2 le_rfl (wfB_lookupKV xs kv.1 kv.2 hwfx hx)
  have hsub2 : jsonEqSub ys xs = true := by
    apply jsonEqSub_of_matched
    intro kv hkv
    have hy : lookupKV ys kv.1 = some kv.2 :=
      lookupKV_of_mem_nodup ys kv.1 kv.2 (by simpa using hkv) hndy
    have hx : lookupKV xs kv.1 = some kv.2 := by rw [hext kv.1]; exact hy
    refine ⟨kv.2, hx, ?_⟩
    exact jsonEq_refl_sized (sizeOf kv.2) kv.2 le_rfl (wfB_lookupKV xs kv.1 kv.2 hwfx hx)
  simp [jsonEq, hsub1, hsub2]

/-! ### Interactive prompt (`prompt_switch_action`) -/

/-- The White_Space characters trimmed by Rust's `str::trim`. -/
def isRustWhitespace (c : Char) : Bool :=
  let n := c.toNat
  (0x9 ≤ n && n ≤ 0xD) || n == 0x20 || n == 0x85 || n == 0xA0 || n == 0x1680 ||
  (0x2000 ≤ n && n ≤ 0x200A) || n == 0x2028 || n == 0x2029 || n == 0x202F ||
  n == 0x205F || n == 0x3000

/-- `str::trim`: drop leading and trailing whitespace. -/
def rustTrim (s : String) : String :=
  ⟨((s.toList.dropWhile isRustWhitespace).reverse.dropWhile isRustWhitespace).reverse⟩

/-- `str::parse::<u32>`: an optional leading `+`, then one or more ASCII
digits, and the value must fit in 32 bits. -/
def parseU32 (s : String) : Option Nat :=
  let cs := s.toList
  let ds := match cs with
    | '+' :: rest => rest
    | _ => cs
  if ds.isEmpty then none
  else if ds.all (fun c => c.isDigit) then
    let n := ds.foldl (fun acc c => acc * 10 + (c.toNat - 48)) 0
    if n < 2 ^ 32 then some n else none
  else none

/-- Model of `prompt_switch_action` (`src/profile.rs` lines 39-57): parse
the trimmed input line as a `u32`; a value in `1..=3` is returned, and
anything else (parse failure included) collapses to `3`, the cancel
choice. -/
def prompt_switch_action (input : String) : Nat :=
  match parseU32 (rustTrim input) with
  | some n => if 1 ≤ n ∧ n ≤ 3 then n else 3
  | none => 3

/-! ### Reconciliation controller state

`CcmState` holds the parts of the filesystem that `profile.rs` reads and
writes: the profile store (`profiles/<name>.json`, parsed), the global
current-profile marker (`current`), the external settings file (absent or
parsed), the project-directory → profile-name mappings
(`projects/<hash>.json`) and the per-project `.claude/settings.local.json`
overlays, plus the current working directory. -/
structure CcmState where
  profiles : List (String × Json)
  current : Option String
  settings : Option Json
  projects : List (String × String)
  overlays : List (String × Json)
  cwd : String

/-- Result of `handle_profile_mismatch_check`: whether the switch should
proceed, whether the interactive mismatch prompt was shown, and the state
afterwards (choice 2 writes the live settings into the active profile). -/
structure CheckResult where
  proceed : Bool
  prompted : Bool
  state : CcmState

/-- Model of `handle_profile_mismatch_check` (`src/profile.rs` lines
383-444): proceed silently unless there is an active profile whose stored
file exists, the settings file exists, and the two parsed documents are
structurally unequal; in that case prompt, with choice 1 proceeding,
choice 2 overwriting the active profile with the settings content and then
proceeding, and anything else cancelling. -/
def handle_profile_mismatch_check (st : CcmState) (input : String) : CheckResult :=
  match st.current with
  | none => ⟨true, false, st⟩
  | some cur =>
    match st.settings with
    | none => ⟨true, false, st⟩
    | some settingsVal =>
      match lookupKV st.profiles cur with
      | none => ⟨true, false, st⟩
      | some profVal =>
        if jsonEq settingsVal profVal then ⟨true, false, st⟩
        else
          match prompt_switch_action input with
          | 1 => ⟨true, true, st⟩
          | 2 => ⟨true, true, { st with profiles := setKV st.profiles cur settingsVal }⟩
          | _ => ⟨false, true, st⟩

inductive SwitchResult where
  | switched
  | cancelled
  | errMissingProfile

/-- `switch_to_profile` uses `anyhow::bail!` only for a missing target
profile; a cancelled mismatch check is an `Ok(())` early return. -/
def SwitchResult.isError : SwitchResult → Bool
  | .errMissingProfile => true
  | _ => false

/-- Model of `switch_global_profile` (`src/profile.rs` lines 447-472): run
the mismatch check; on cancel return without writing, otherwise copy the
target profile file over the settings file and set the current marker. -/
def switch_global_profile (name : String) (st : CcmState) (input : String) :
    SwitchResult × Bool × CcmState :=
  let r := handle_profile_mismatch_check st input
  if r.proceed then
    match lookupKV r.state.profiles name with
    | some doc =>
        (.switched, r.prompted,
          { r.state with settings := some doc, current := some name })
    | none => (.errMissingProfile, r.prompted, r.state)
  else (.cancelled, r.prompted, r.state)

/-- Model of `switch_project_profile` (`src/profile.rs` lines 342-379):
merge the profile into the existing `.claude/settings.local.json`, or
create it verbatim from the profile content, then record the
project-to-profile mapping.  No mismatch check is involved. -/
def switch_project_profile (name : String) (profileValue : Json) (st : CcmState) :
    SwitchResult × Bool × CcmState :=
  let newOverlay :=
    match lookupKV st.overlays st.cwd with
    | some existingValue => merge_json existingValue profileValue
    | none => profileValue
  (.switched, false,
    { st with overlays := setKV st.overlays st.cwd newOverlay,
              projects := setKV st.projects st.cwd name })

/-- Model of `switch_to_profile` (`src/profile.rs` lines 475-491): bail if
the target profile file does not exist, then dispatch on the scope. -/
def switch_to_profile (name : String) (projectMode : Bool) (st : CcmState)
    (input : String) : SwitchResult × Bool × CcmState :=
  match lookupKV st.profiles name with
  | none => (.errMissingProfile, false, st)
  | some doc =>
      if projectMode then switch_project_profile name doc st
      else switch_global_profile name st input

inductive RemoveResult where
  | inUseGlobal
  | inUseProject
  | removed
  | notFound

/-- Model of `remove_profile` (`src/profile.rs` lines 276-310).  Every
branch of the Rust function returns `Ok(())`: the in-use and not-found
cases print a message and succeed without touching any file. -/
def remove_profile (name : String) (st : CcmState) : RemoveResult × CcmState :=
  if st.current = some name then (.inUseGlobal, st)
  else if lookupKV st.projects st.cwd = some name then (.inUseProject, st)
  else if (lookupKV st.profiles name).isSome then
    (.removed, { st with profiles := eraseKV st.profiles name })
  else (.notFound, st)

inductive RenameResult where
  | renamed
  | errOriginMissing
  | errNewExists

/-- Model of `rename_profile` (`src/profile.rs` lines 539-575): bail if the
origin is missing or the new name exists; otherwise rename the file and,
when the origin was the global current profile, update the marker. -/
def rename_profile (origin newName : String) (st : CcmState) :
    RenameResult × CcmState :=
  match lookupKV st.profiles origin with
  | none => (.errOriginMissing, st)
  | some doc =>
    if (lookupKV st.profiles newName).isSome then (.errNewExists, st)
    else
      let st1 := { st with profiles := eraseKV st.profiles origin ++ [(newName, doc)] }
      if st.current = some origin then (.renamed, { st1 with current := some newName })
      else (.renamed, st1)

/-- Insertion into a list sorted by profile file name, modelling
`entries.sort_by_key(|e| e.file_name())`. -/
def insertSorted (x : String) : List String → List String
  | [] => [x]
  | y :: ys =>
      if x ++ ".json" ≤ y ++ ".json" then x :: y :: ys else y :: insertSorted x ys

def sortNames : List String → List String
  | [] => []
  | x :: xs => insertSorted x (sortNames xs)

/-- Model of `list_profiles` (`src/profile.rs` lines 215-265): the sorted
profile names, each annotated with its is-global-current flag (printed as
"(current)") and is-project-current flag (printed as "(current project)"
when the global flag is off). -/
def list_profiles (st : CcmState) : List (String × Bool × Bool) :=
  (sortNames (keysOf st.profiles)).map
    (fun n => (n, decide (st.current = some n),
               decide (lookupKV st.projects st.cwd = some n)))

inductive ClearResult where
  | noMapping
  | missingProfile
  | cleared

/-- Model of `clear_project_profile` (`src/profile.rs` lines 713-788): a
missing mapping is a no-op; a mapping to a missing profile file only
removes the mapping (with a warning); otherwise unmerge the profile from
the overlay, deleting the overlay file when the result is an empty object
and persisting it otherwise, then remove the mapping.  Every branch of the
Rust function returns `Ok(())`. -/
def clear_project_profile (st : CcmState) : ClearResult × CcmState :=
  match lookupKV st.projects st.cwd with
  | none => (.noMapping, st)
  | some mappedName =>
    match lookupKV st.profiles mappedName with
    | none =>
        (.missingProfile, { st with projects := eraseKV st.projects st.cwd })
    | some profVal =>
      match lookupKV st.overlays st.cwd with
      | none => (.cleared, { st with projects := eraseKV st.projects st.cwd })
      | some overlayVal =>
        match remove_json_keys overlayVal profVal with
        | .obj m =>
          if m.isEmpty then
            (.cleared, { st with overlays := eraseKV st.overlays st.cwd,
                                 projects := eraseKV st.projects st.cwd })
          else
            (.cleared, { st with overlays := setKV st.overlays st.cwd (.obj m),
                                 projects := eraseKV st.projects st.cwd })
        | _ => (.cleared, { st with projects := eraseKV st.projects st.cwd })

theorem insertSorted_perm (x : String) (l : List String) :
    List.Perm (insertSorted x l) (x :: l) := by
  induction l with
  | nil => simp [insertSorted]
  | cons y ys ih =>
    simp only [insertSorted]
    by_cases h : x ++ ".json" ≤ y ++ ".json"
    · simp [h]
    · simp only [h, if_false]
      exact ((ih.cons y).trans (List.Perm.swap x y ys))

theorem sortNames_perm (l : List String) : List.Perm (sortNames l) l := by
  induction l with
  | nil => simp [sortNames]
  | cons x xs ih =>
    simp only [sortNames]
    exact (insertSorted_perm x (sortNames xs)).trans (ih.cons x)

theorem mem_keysOf_eraseKV {α : Type} (l : List (String × α)) (key k : String) :
    k ∈ keysOf (eraseKV l key) → k ∈ keysOf l := by
  induction l with
  | nil => simp [eraseKV, keysOf]
  | cons hd tl ih =>
    obtain ⟨k0, v0⟩ := hd
    intro h
    by_cases h0 : k0 = key
    · simp only [eraseKV, if_pos h0] at h
      exact List.mem_cons_of_mem _ (ih h)
    · simp only [eraseKV, if_neg h0, keysOf, List.map_cons, List.mem_cons] at h
      rcases h with h | h
      · simp [keysOf, h]
      · exact List.mem_cons_of_mem _ (ih (by simpa [keysOf] using h))

theorem not_mem_keysOf_eraseKV {α : Type} (l : List (String × α)) (key : String) :
    key ∉ keysOf (eraseKV l key) := by
  induction l with
  | nil => simp [eraseKV, keysOf]
  | cons hd tl ih =>
    obtain ⟨k0, v0⟩ := hd
    by_cases h0 : k0 = key
    · simpa [eraseKV, h0] using ih
    · simp only [eraseKV, if_neg h0, keysOf, List.map_cons, List.mem_cons]
      push_neg
      exact ⟨Ne.symm h0, by simpa [keysOf] using ih⟩

theorem filter_of_map {α β : Type} (f : α → β) (p : β → Bool) (l : List α) :
    (l.map f).filter p = (l.filter (fun a => p (f a))).map f := by
  induction l with
  | nil => simp
  | cons hd tl ih =>
    by_cases h : p (f hd) = true
    · simp [List.filter_cons, h, ih]
    · simp [List.filter_cons, h, ih]

theorem filter_eq_single_of_count (c : String) (l : List String)
    (hc : l.count c = 1) : l.filter (fun n => decide (c = n)) = [c] := by
  induction l with
  | nil => simp at hc
  | cons hd tl ih =>
    by_cases h : hd = c
    · subst h
      have : tl.count hd = 0 := by
        rw [List.count_cons_self] at hc
        omega
      have hnot : hd ∉ tl := by
        intro hmem
        have := List.count_pos_iff_mem.mpr hmem
        omega
      have : tl.filter (fun n => decide (hd = n)) = [] := by
        apply List.filter_eq_nil.mpr
        intro a ha
        simp only [decide_eq_true_eq]
        intro he
        exact hnot (he ▸ ha)
      simp [List.filter_cons, this]
    · have hcount : tl.count c = 1 := by
        rw [List.count_cons_of_ne (fun he => h he.symm)] at hc
        exact hc
      simp [List.filter_cons, Ne.symm h, ih hcount, h]

/-- The base of `remove_json_keys` keeps its top-level constructor class. -/
theorem remove_json_keys_isObj (b o : Json) :
    (remove_json_keys b o).isObj = b.isObj := by
  cases b <;> cases o <;> simp [remove_json_keys, Json.isObj]

theorem remove_json_keys_base_nonobj (b o : Json) (h : b.isObj = false) :
    remove_json_keys b o = b := by
  cases b <;> cases o <;> simp_all [remove_json_keys, Json.isObj]

/-- A profile document `{"env":{"K":"1"}}` used in concrete witnesses. -/
def docWork : Json := Json.obj [("env", Json.obj [("K", Json.str "1")])]

/-- A profile document `{"env":{"K":"2"}}` used in concrete witnesses. -/
def docPlay : Json := Json.obj [("env", Json.obj [("K", Json.str "2")])]

/-- A concrete state: the active profile "work" differs from the live
settings, while the switch target "play" equals the live settings. -/
def stExample : CcmState :=
  { profiles := [("work", docWork), ("play", docPlay)],
    current := some "work",
    settings := some docPlay,
    projects := [],
    overlays := [],
    cwd := "/proj" }

example : jsonEq docPlay docWork = false := by
  simp [docPlay, docWork, jsonEq, jsonEqSub, lookupKV]

example : jsonEq docPlay docPlay = true := by
  simp [docPlay, jsonEq, jsonEqSub, lookupKV]

example : prompt_switch_action "3" = 3 := by rfl

example : prompt_switch_action " 2 " = 2 := by rfl

/-- C6: choosing Cancel at the mismatch prompt during a global-scope switch
performs no writes at all — the settings file, the current marker, the
profile store, the project mappings and the overlays are all unchanged —
and the operation ends as Cancelled, which is not an error. -/
theorem switch_cancel_spec (st : CcmState) (name input : String)
    (doc : Json) (cur : String) (settingsVal profVal : Json)
    (hname : lookupKV st.profiles name = some doc)
    (hcur : st.current = some cur)
    (hset : st.settings = some settingsVal)
    (hprof : lookupKV st.profiles cur = some profVal)
    (hne : jsonEq settingsVal profVal = false)
    (hcancel : prompt_switch_action input = 3) :
    switch_to_profile name false st input = (.cancelled, true, st) ∧
    SwitchResult.cancelled.isError = false := by
  constructor
  · simp [switch_to_profile, hname, switch_global_profile,
      handle_profile_mismatch_check, hcur, hset, hprof, hne, hcancel]
  · rfl

/-- Witness for C6: cancelling at the prompt in `stExample` leaves the
state untouched. -/
theorem switch_cancel_spec_witness :
    switch_to_profile "play" false stExample "3" = (.cancelled, true, stExample) ∧
    SwitchResult.cancelled.isError = false :=
  switch_cancel_spec stExample "play" "3" docPlay "work" docPlay docWork
    (by simp [stExample, lookupKV]) (by simp [stExample]) (by simp [stExample])
    (by simp [stExample, lookupKV])
    (by simp [docPlay, docWork, jsonEq, jsonEqSub, lookupKV]) (by rfl)

/-- C7: removing the global current profile, or the current profile of the
active project directory, is refused as in-use with no file change (the
Rust branch prints a message and returns `Ok(())`); removing a non-active
existing profile deletes exactly that profile file, so the name disappears
from subsequent `list_profiles` results; removing an absent profile
reports not-found with no change (also an `Ok(())` return). -/
theorem remove_profile_spec :
    (∀ st name, st.current = some name →
        remove_profile name st = (.inUseGlobal, st)) ∧
    (∀ st name, st.current ≠ some name →
        lookupKV st.projects st.cwd = some name →
        remove_profile name st = (.inUseProject, st)) ∧
    (∀ st name, st.current ≠ some name →
        lookupKV st.projects st.cwd ≠ some name →
        (lookupKV st.profiles name).isSome →
        remove_profile name st
          = (.removed, { st with profiles := eraseKV st.profiles name })) ∧
    (∀ st name, st.current ≠ some name →
        lookupKV st.projects st.cwd ≠ some name →
        lookupKV st.profiles name = none →
        remove_profile name st = (.notFound, st)) ∧
    (∀ st name, st.current ≠ some name →
        lookupKV st.projects st.cwd ≠ some name →
        (lookupKV st.profiles name).isSome →
        name ∉ (list_profiles (remove_profile name st).2).map (fun e => e.1)) := by
  refine ⟨?_, ?_, ?_, ?_, ?_⟩
  · intro st name h
    simp [remove_profile, h]
  · intro st name h1 h2
    simp [remove_profile, h1, h2]
  · intro st name h1 h2 h3
    simp [remove_profile, h1, h2, h3]
  · intro st name h1 h2 h3
    simp [remove_profile, h1, h2, h3]
  · intro st name h1 h2 h3
    have hstate : (remove_profile name st).2
        = { st with profiles := eraseKV st.profiles name } := by
      simp [remove_profile, h1, h2, h3]
    rw [hstate]
    intro hmem
    simp only [list_profiles, List.map_map] at hmem
    have hmem2 : name ∈ sortNames (keysOf (eraseKV st.profiles name)) := by
      simpa using hmem
    have hmem3 : name ∈ keysOf (eraseKV st.profiles name) :=
      ((sortNames_perm _).mem_iff).mp hmem2
    exact not_mem_keysOf_eraseKV st.profiles name hmem3

/-- Witness for C7: in `stExample` the active profile "work" is refused,
while the inactive "play" is removed and vanishes from the listing. -/
theorem remove_profile_spec_witness :
    remove_profile "work" stExample = (.inUseGlobal, stExample) ∧
    remove_profile "play" stExample
      = (.removed, { stExample with profiles := eraseKV stExample.profiles "play" }) ∧
    "play" ∉ (list_profiles (remove_profile "play" stExample).2).map (fun e => e.1) := by
  refine ⟨?_, ?_, ?_⟩
  · exact remove_profile_spec.1 stExample "work" (by simp [stExample])
  · exact remove_profile_spec.2.2.1 stExample "play" (by simp [stExample])
      (by simp [stExample, lookupKV]) (by simp [stExample, lookupKV])
  · exact remove_profile_spec.2.2.2.2 stExample "play" (by simp [stExample])
      (by simp [stExample, lookupKV]) (by simp [stExample, lookupKV])

/-- C9: clearing the project override is a no-op that creates no files when
no mapping exists; when the mapped profile's file is missing, only the
mapping is removed and the overlay is untouched; otherwise the profile is
unmerged from the overlay, the overlay file is deleted exactly when the
reduction gives an empty object and keeps the reduced content otherwise;
and after every run the project mapping for the working directory is
gone. -/
theorem clear_project_profile_spec :
    (∀ st, lookupKV st.projects st.cwd = none →
        clear_project_profile st = (.noMapping, st)) ∧
    (∀ st name, lookupKV st.projects st.cwd = some name →
        lookupKV st.profiles name = none →
        clear_project_profile st
          = (.missingProfile, { st with projects := eraseKV st.projects st.cwd })) ∧
    (∀ st name doc, lookupKV st.projects st.cwd = some name →
        lookupKV st.profiles name = some doc →
        lookupKV st.overlays st.cwd = none →
        clear_project_profile st
          = (.cleared, { st with projects := eraseKV st.projects st.cwd })) ∧
    (∀ st name doc ov, lookupKV st.projects st.cwd = some name →
        lookupKV st.profiles name = some doc →
        lookupKV st.overlays st.cwd = some ov →
        (clear_project_profile st).1 = .cleared ∧
        lookupKV (clear_project_profile st).2.overlays st.cwd
          = (if (remove_json_keys ov doc).isEmptyObj = true then none
             else some (remove_json_keys ov doc))) ∧
    (∀ st, lookupKV (clear_project_profile st).2.projects st.cwd = none) := by
  refine ⟨?_, ?_, ?_, ?_, ?_⟩
  · intro st h
    simp [clear_project_profile, h]
  · intro st name h1 h2
    simp [clear_project_profile, h1, h2]
  · intro st name doc h1 h2 h3
    simp [clear_project_profile, h1, h2, h3]
  · intro st name doc ov h1 h2 h3
    cases hr : remove_json_keys ov doc with
    | obj m =>
      cases m with
      | nil =>
        refine ⟨by simp [clear_project_profile, h1, h2, h3, hr], ?_⟩
        simp [clear_project_profile, h1, h2, h3, hr, lookupKV_eraseKV_self,
          Json.isEmptyObj]
      | cons mh mt =>
        refine ⟨by simp [clear_project_profile, h1, h2, h3, hr], ?_⟩
        simp [clear_project_profile, h1, h2, h3, hr, lookupKV_setKV_self,
          Json.isEmptyObj]
    | null =>
      have hov : remove_json_keys ov doc = ov := by
        apply remove_json_keys_base_nonobj
        have := remove_json_keys_isObj ov doc
        rw [hr] at this
        simpa [Json.isObj] using this.symm
      refine ⟨by simp [clear_project_profile, h1, h2, h3, hr], ?_⟩
      rw [show (clear_project_profile st).2
          = { st with projects := eraseKV st.projects st.cwd } from by
        simp [clear_project_profile, h1, h2, h3, hr]]
      simp [h3, hov.symm.trans hr, Json.isEmptyObj]
    | bool b2 =>
      have hov : remove_json_keys ov doc = ov := by
        apply remove_json_keys_base_nonobj
        have := remove_json_keys_isObj ov doc
        rw [hr] at this
        simpa [Json.isObj] using this.symm
      refine ⟨by simp [clear_project_profile, h1, h2, h3, hr], ?_⟩
      rw [show (clear_project_profile st).2
          = { st with projects := eraseKV st.projects st.cwd } from by
        simp [clear_project_profile, h1, h2, h3, hr]]
      simp [h3, hov.symm.trans hr, Json.isEmptyObj]
    | num m =>
      have hov : remove_json_keys ov doc = ov := by
        apply remove_json_keys_base_nonobj
        have := remove_json_keys_isObj ov doc
        rw [hr] at this
        simpa [Json.isObj] using this.symm
      refine ⟨by simp [clear_project_profile, h1, h2, h3, hr], ?_⟩
      rw [show (clear_project_profile st).2
          = { st with projects := eraseKV st.projects st.cwd } from by
        simp [clear_project_profile, h1, h2, h3, hr]]
      simp [h3, hov.symm.trans hr, Json.isEmptyObj]
    | str s =>
      have hov : remove_json_keys ov doc = ov := by
        apply remove_json_keys_base_nonobj
        have := remove_json_keys_isObj ov doc
        rw [hr] at this
        simpa [Json.isObj] using this.symm
      refine ⟨by simp [clear_project_profile, h1, h2, h3, hr], ?_⟩
      rw [show (clear_project_profile st).2
          = { st with projects := eraseKV st.projects st.cwd } from by
        simp [clear_project_profile, h1, h2, h3, hr]]
      simp [h3, hov.symm.trans hr, Json.isEmptyObj]
    | arr xs =>
      have hov : remove_json_keys ov doc = ov := by
        apply remove_json_keys_base_nonobj
        have := remove_json_keys_isObj ov doc
        rw [hr] at this
        simpa [Json.isObj] using this.symm
      refine ⟨by simp [clear_project_profile, h1, h2, h3, hr], ?_⟩
      rw [show (clear_project_profile st).2
          = { st with projects := eraseKV st.projects st.cwd } from by
        simp [clear_project_profile, h1, h2, h3, hr]]
      simp [h3, hov.symm.trans hr, Json.isEmptyObj]
  · intro st
    cases h1 : lookupKV st.projects st.cwd with
    | none => simp [clear_project_profile, h1]
    | some name =>
      cases h2 : lookupKV st.profiles name with
      | none => simp [clear_project_profile, h1, h2, lookupKV_eraseKV_self]
      | some doc =>
        cases h3 : lookupKV st.overlays st.cwd with
        | none => simp [clear_project_profile, h1, h2, h3, lookupKV_eraseKV_self]
        | some ov =>
          cases hr : remove_json_keys ov doc with
          | obj m =>
            cases m with
            | nil =>
              simp [clear_project_profile, h1, h2, h3, hr, lookupKV_eraseKV_self]
            | cons mh mt =>
              simp [clear_project_profile, h1, h2, h3, hr, lookupKV_eraseKV_self]
          | null => simp [clear_project_profile, h1, h2, h3, hr, lookupKV_eraseKV_self]
          | bool b2 => simp [clear_project_profile, h1, h2, h3, hr, lookupKV_eraseKV_self]
          | num m => simp [clear_project_profile, h1, h2, h3, hr, lookupKV_eraseKV_self]
          | str s => simp [clear_project_profile, h1, h2, h3, hr, lookupKV_eraseKV_self]
          | arr xs => simp [clear_project_profile, h1, h2, h3, hr, lookupKV_eraseKV_self]

/-- C8: `rename_profile` fails without changes when the origin is missing
or the new name exists; otherwise it renames the stored file, updates the
global marker exactly when the origin was the current profile, and when it
was, the subsequent listing flags exactly one entry as current — the new
name. -/
theorem rename_profile_spec :
    (∀ st origin newName, lookupKV st.profiles origin = none →
        rename_profile origin newName st = (.errOriginMissing, st)) ∧
    (∀ st origin newName doc, lookupKV st.profiles origin = some doc →
        (lookupKV st.profiles newName).isSome →
        rename_profile origin newName st = (.errNewExists, st)) ∧
    (∀ st origin newName doc, lookupKV st.profiles origin = some doc →
        lookupKV st.profiles newName = none →
        rename_profile origin newName st
          = (.renamed,
             { st with
                profiles := eraseKV st.profiles origin ++ [(newName, doc)],
                current := if st.current = some origin then some newName
                           else st.current })) ∧
    (∀ st origin newName doc, (keysOf st.profiles).Nodup →
        lookupKV st.profiles origin = some doc →
        lookupKV st.profiles newName = none →
        st.current = some origin →
        ((list_profiles (rename_profile origin newName st).2).filter
            (fun e => e.2.1)).map (fun e => e.1) = [newName]) := by
  have hmain : ∀ (st : CcmState) (origin newName : String) (doc : Json),
      lookupKV st.profiles origin = some doc →
      lookupKV st.profiles newName = none →
      rename_profile origin newName st
        = (.renamed,
           { st with
              profiles := eraseKV st.profiles origin ++ [(newName, doc)],
              current := if st.current = some origin then some newName
                         else st.current }) := by
    intro st origin newName doc h1 h2
    by_cases hc : st.current = some origin
    · simp [rename_profile, h1, h2, hc]
    · simp [rename_profile, h1, h2, hc]
  refine ⟨?_, ?_, hmain, ?_⟩
  · intro st origin newName h
    simp [rename_profile, h]
  · intro st origin newName doc h1 h2
    simp [rename_profile, h1, h2]
  · intro st origin newName doc hnd h1 h2 hcur
    rw [hmain st origin newName doc h1 h2]
    simp only [if_pos hcur]
    have hnotmem : newName ∉ keysOf (eraseKV st.profiles origin) := by
      intro hmem
      have hmem2 := mem_keysOf_eraseKV st.profiles origin newName hmem
      have := lookupKV_isSome_of_mem_keys st.profiles newName hmem2
      rw [h2] at this
      simp at this
    have hkeys : keysOf (eraseKV st.profiles origin ++ [(newName, doc)])
        = keysOf (eraseKV st.profiles origin) ++ [newName] := by
      simp [keysOf]
    have hcount : (sortNames (keysOf (eraseKV st.profiles origin)
        ++ [newName])).count newName = 1 := by
      rw [(sortNames_perm _).count_eq]
      rw [List.count_append]
      rw [List.count_eq_zero.mpr hnotmem]
      simp
    simp only [list_profiles, hkeys]
    rw [filter_of_map]
    have hpred : (fun n => ((fun n2 => (n2, decide ((some newName : Option String) = some n2),
        decide (lookupKV st.projects st.cwd = some n2))) n).2.1)
        = (fun n => decide (newName = n)) := by
      funext n
      simp
    rw [hpred]
    rw [filter_eq_single_of_count newName _ hcount]
    simp

/-- Witness for C8: renaming the active profile "work" to "base" in
`stExample` moves the file and the marker, and the listing flags exactly
the entry "base" as current. -/
theorem rename_profile_spec_witness :
    rename_profile "work" "base" stExample
      = (.renamed,
         { stExample with
            profiles := eraseKV stExample.profiles "work" ++ [("base", docWork)],
            current := if stExample.current = some "work" then some "base"
                       else stExample.current }) ∧
    ((list_profiles (rename_profile "work" "base" stExample).2).filter
        (fun e => e.2.1)).map (fun e => e.1) = ["base"] := by
  constructor
  · exact rename_profile_spec.2.2.1 stExample "work" "base" docWork
      (by simp [stExample, lookupKV]) (by simp [stExample, lookupKV])
  · exact rename_profile_spec.2.2.2 stExample "work" "base" docWork
      (by simp [stExample, keysOf]) (by simp [stExample, lookupKV])
      (by simp [stExample, lookupKV]) (by simp [stExample])

/-- The project overlay `{"env":{"K":"1"},"other":7}` used in witnesses. -/
def ovProj : Json :=
  Json.obj [("env", Json.obj [("K", Json.str "1")]), ("other", Json.num 7)]

/-- A concrete state with a project mapping to "work" and an overlay that
contains the profile's fields plus an unrelated key. -/
def stProject : CcmState :=
  { profiles := [("work", docWork)],
    current := none,
    settings := none,
    projects := [("/proj", "work")],
    overlays := [("/proj", ovProj)],
    cwd := "/proj" }

/-- Witness for C9: clearing `stProject` unmerges "work" from the overlay
(the reduced overlay `{"other":7}` is kept because it is nonempty) and
removes the project mapping. -/
theorem clear_project_profile_spec_witness :
    lookupKV (clear_project_profile stProject).2.overlays "/proj"
      = some (remove_json_keys ovProj docWork) ∧
    remove_json_keys ovProj docWork = Json.obj [("other", Json.num 7)] ∧
    lookupKV (clear_project_profile stProject).2.projects "/proj" = none := by
  refine ⟨?_, ?_, ?_⟩
  · have h := clear_project_profile_spec.2.2.2.1 stProject "work" docWork ovProj
      (by simp [stProject, lookupKV]) (by simp [stProject, lookupKV])
      (by simp [stProject, lookupKV])
    have hempty : (remove_json_keys ovProj docWork).isEmptyObj = false := by
      simp [ovProj, docWork, remove_json_keys, removePhase1, removePhase2,
        lookupKV, setKV, eraseKV, Json.isObj, Json.isEmptyObj, List.filter_cons]
    have h2 := h.2
    rw [hempty] at h2
    simpa [stProject] using h2
  · simp [ovProj, docWork, remove_json_keys, removePhase1, removePhase2,
      lookupKV, setKV, eraseKV, Json.isObj, Json.isEmptyObj, List.filter_cons]
  · have := clear_project_profile_spec.2.2.2.2 stProject
    simpa [stProject] using this

/-- C10: at the mismatch prompt, any input line that does not parse (after
trimming) as an integer in `1..=3` — the empty line included — collapses
to the cancel choice, and the global switch then performs no writes and
returns Cancelled. -/
theorem invalid_prompt_cancel_spec :
    (∀ input : String,
        (∀ n, parseU32 (rustTrim input) = some n → ¬(1 ≤ n ∧ n ≤ 3)) →
        prompt_switch_action input = 3) ∧
    (∀ (st : CcmState) (name input : String) (doc : Json) (cur : String)
        (settingsVal profVal : Json),
        lookupKV st.profiles name = some doc →
        st.current = some cur →
        st.settings = some settingsVal →
        lookupKV st.profiles cur = some profVal →
        jsonEq settingsVal profVal = false →
        (∀ n, parseU32 (rustTrim input) = some n → ¬(1 ≤ n ∧ n ≤ 3)) →
        switch_to_profile name false st input = (.cancelled, true, st)) := by
  have hprompt : ∀ input : String,
      (∀ n, parseU32 (rustTrim input) = some n → ¬(1 ≤ n ∧ n ≤ 3)) →
      prompt_switch_action input = 3 := by
    intro input h
    unfold prompt_switch_action
    cases hp : parseU32 (rustTrim input) with
    | none => rfl
    | some n =>
      have := h n hp
      simp [this]
  refine ⟨hprompt, ?_⟩
  intro st name input doc cur settingsVal profVal h1 h2 h3 h4 h5 h6
  simp [switch_to_profile, h1, switch_global_profile, handle_profile_mismatch_check,
    h2, h3, h4, h5, hprompt input h6]

/-- Witness for C10: the empty input line cancels the switch in
`stExample` without any write. -/
theorem invalid_prompt_cancel_spec_witness :
    prompt_switch_action "" = 3 ∧
    switch_to_profile "play" false stExample "" = (.cancelled, true, stExample) := by
  have hbad : ∀ n, parseU32 (rustTrim "") = some n → ¬(1 ≤ n ∧ n ≤ 3) := by
    intro n hp
    simp [parseU32, rustTrim] at hp
  exact ⟨invalid_prompt_cancel_spec.1 "" hbad,
    invalid_prompt_cancel_spec.2 stExample "play" "" docPlay "work" docPlay docWork
      (by simp [stExample, lookupKV]) (by simp [stExample]) (by simp [stExample])
      (by simp [stExample, lookupKV])
      (by simp [docPlay, docWork, jsonEq, jsonEqSub, lookupKV]) hbad⟩

/-- Counterexample to C4 as stated: in `stExample` the active profile
"work" differs from the live settings (a Mismatch) and the user input "3"
is the Cancel choice, yet the PROJECT-scope switch to "play" is still
performed — it records the mapping and writes the overlay without ever
showing the prompt — while the same input stops the global-scope switch.
So in project scope the switch is not guarded by mismatch resolution. -/
theorem switch_scope_mismatch_cex :
    jsonEq docPlay docWork = false ∧
    stExample.current = some "work" ∧
    stExample.settings = some docPlay ∧
    lookupKV stExample.profiles "work" = some docWork ∧
    prompt_switch_action "3" = 3 ∧
    (switch_to_profile "play" true stExample "3").1 = .switched ∧
    (switch_to_profile "play" true stExample "3").2.1 = false ∧
    lookupKV (switch_to_profile "play" true stExample "3").2.2.projects "/proj"
      = some "play" ∧
    (switch_to_profile "play" false stExample "3").1 = .cancelled := by
  refine ⟨?_, rfl, rfl, ?_, rfl, ?_, ?_, ?_, ?_⟩
  · simp [docPlay, docWork, jsonEq, jsonEqSub, lookupKV]
  · simp [stExample, lookupKV]
  · simp [switch_to_profile, stExample, lookupKV, switch_project_profile]
  · simp [switch_to_profile, stExample, lookupKV, switch_project_profile]
  · simp [switch_to_profile, stExample, lookupKV, switch_project_profile, setKV]
  · have hne : jsonEq docPlay docWork = false := by
      simp [docPlay, docWork, jsonEq, jsonEqSub, lookupKV]
    have hp : prompt_switch_action "3" = 3 := rfl
    simp [switch_to_profile, stExample, lookupKV, switch_global_profile,
      handle_profile_mismatch_check, hne, hp]

/-- C4 amended: only the GLOBAL-scope switch is guarded by the mismatch
check — with an unresolved mismatch (Cancel) nothing is written, with no
mismatch the switch proceeds silently.  The project-scope switch runs no
mismatch check at all: whatever the input, it merges the target profile's
document into the project overlay (creating the overlay verbatim from the
profile content when none exists) and then records the project mapping. -/
theorem switch_scope_spec :
    (∀ (st : CcmState) (name input : String) (doc : Json) (cur : String)
        (settingsVal profVal : Json),
        lookupKV st.profiles name = some doc →
        st.current = some cur →
        st.settings = some settingsVal →
        lookupKV st.profiles cur = some profVal →
        jsonEq settingsVal profVal = false →
        prompt_switch_action input = 3 →
        switch_to_profile name false st input = (.cancelled, true, st)) ∧
    (∀ (st : CcmState) (name input : String) (doc : Json) (cur : String)
        (settingsVal profVal : Json),
        lookupKV st.profiles name = some doc →
        st.current = some cur →
        st.settings = some settingsVal →
        lookupKV st.profiles cur = some profVal →
        jsonEq settingsVal profVal = true →
        switch_to_profile name false st input
          = (.switched, false,
             { st with settings := some doc, current := some name })) ∧
    (∀ (st : CcmState) (name input : String) (doc : Json),
        lookupKV st.profiles name = some doc →
        switch_to_profile name true st input
          = (.switched, false,
             { st with
                overlays := setKV st.overlays st.cwd
                  (match lookupKV st.overlays st.cwd with
                   | some existingValue => merge_json existingValue doc
                   | none => doc),
                projects := setKV st.projects st.cwd name })) := by
  refine ⟨?_, ?_, ?_⟩
  · intro st name input doc cur settingsVal profVal h1 h2 h3 h4 h5 h6
    simp [switch_to_profile, h1, switch_global_profile,
      handle_profile_mismatch_check, h2, h3, h4, h5, h6]
  · intro st name input doc cur settingsVal profVal h1 h2 h3 h4 h5
    simp [switch_to_profile, h1, switch_global_profile,
      handle_profile_mismatch_check, h2, h3, h4, h5]
  · intro st name input doc h1
    simp [switch_to_profile, h1, switch_project_profile]

/-- Witness for the amended C4: in `stExample` the project switch to
"play" proceeds regardless of the cancel input, creating the overlay
verbatim and recording the mapping, while the global switch cancels. -/
theorem switch_scope_spec_witness :
    switch_to_profile "play" true stExample "3"
      = (.switched, false,
         { stExample with
            overlays := setKV stExample.overlays stExample.cwd
              (match lookupKV stExample.overlays stExample.cwd with
               | some existingValue => merge_json existingValue docPlay
               | none => docPlay),
            projects := setKV stExample.projects stExample.cwd "play" }) ∧
    switch_to_profile "play" false stExample "3" = (.cancelled, true, stExample) := by
  constructor
  · exact switch_scope_spec.2.2 stExample "play" "3" docPlay
      (by simp [stExample, lookupKV])
  · exact switch_scope_spec.1 stExample "play" "3" docPlay "work" docPlay docWork
      (by simp [stExample, lookupKV]) (by simp [stExample]) (by simp [stExample])
      (by simp [stExample, lookupKV])
      (by simp [docPlay, docWork, jsonEq, jsonEqSub, lookupKV]) (by rfl)

/-- Counterexample to C5 as stated: in `stExample` the switch TARGET
"play" has a stored document that deep-equals the live settings, yet the
global switch to "play" still triggers the mismatch prompt, because the
check compares the ACTIVE profile ("work") with the settings. -/
theorem mismatch_prompt_target_cex :
    jsonEq docPlay docPlay = true ∧
    lookupKV stExample.profiles "play" = some docPlay ∧
    stExample.settings = some docPlay ∧
    (switch_to_profile "play" false stExample "1").2.1 = true := by
  refine ⟨?_, ?_, rfl, ?_⟩
  · simp [docPlay, jsonEq, jsonEqSub, lookupKV]
  · simp [stExample, lookupKV]
  · have hne : jsonEq docPlay docWork = false := by
      simp [docPlay, docWork, jsonEq, jsonEqSub, lookupKV]
    have hp : prompt_switch_action "1" = 1 := rfl
    simp [switch_to_profile, stExample, lookupKV, switch_global_profile,
      handle_profile_mismatch_check, hne, hp]

/-- A concrete state whose active profile "play" matches the live
settings. -/
def stInSync : CcmState :=
  { profiles := [("work", docWork), ("play", docPlay)],
    current := some "play",
    settings := some docPlay,
    projects := [],
    overlays := [],
    cwd := "/proj" }

/-- C5 amended: the mismatch check compares the currently ACTIVE profile's
stored document against the live settings (the switch target is never
consulted); when they deep-equal, no prompt is ever shown and the switch
proceeds.  The equality used is full structural JSON equality:
order-independent for object keys and order-sensitive for array
elements. -/
theorem mismatch_equality_spec :
    (∀ (st : CcmState) (name input : String) (doc : Json) (cur : String)
        (settingsVal profVal : Json),
        lookupKV st.profiles name = some doc →
        st.current = some cur →
        st.settings = some settingsVal →
        lookupKV st.profiles cur = some profVal →
        jsonEq settingsVal profVal = true →
        (switch_to_profile name false st input).2.1 = false) ∧
    (∀ xs ys : List (String × Json),
        wfB (.obj xs) = true → (keysOf ys).Nodup →
        (∀ k, lookupKV xs k = lookupKV ys k) →
        jsonEq (.obj xs) (.obj ys) = true) ∧
    (∀ x y : Json, ∀ xs ys : List Json,
        jsonEq (.arr (x :: xs)) (.arr (y :: ys))
          = (jsonEq x y && jsonEqList xs ys)) ∧
    jsonEq (.arr [Json.num 0, Json.num 1]) (.arr [Json.num 1, Json.num 0]) = false := by
  refine ⟨?_, jsonEq_obj_ext, ?_, ?_⟩
  · intro st name input doc cur settingsVal profVal h1 h2 h3 h4 h5
    simp [switch_to_profile, h1, switch_global_profile,
      handle_profile_mismatch_check, h2, h3, h4, h5]
  · intro x y xs ys
    simp [jsonEq, jsonEqList]
  · simp [jsonEq, jsonEqList]

/-- Witness for the amended C5: with "play" active and in sync, switching
to "work" (whose document differs from the settings) shows no prompt; and
two concretely reordered objects compare equal while reordered arrays do
not. -/
theorem mismatch_equality_spec_witness :
    (switch_to_profile "work" false stInSync "junk").2.1 = false ∧
    jsonEq (.obj [("a", Json.num 1), ("b", Json.num 2)])
           (.obj [("b", Json.num 2), ("a", Json.num 1)]) = true := by
  constructor
  · exact mismatch_equality_spec.1 stInSync "work" "junk" docWork "play" docPlay
      docPlay (by simp [stInSync, lookupKV]) (by simp [stInSync])
      (by simp [stInSync]) (by simp [stInSync, lookupKV])
      (by simp [docPlay, jsonEq, jsonEqSub, lookupKV])
  · apply mismatch_equality_spec.2.1
    · simp [wfB, wfBFields, nodupKeysB, keysOf]
    · simp [keysOf]
    · intro k
      by_cases h1 : "a" = k
      · subst h1
        rfl
      · by_cases h2 : "b" = k
        · subst h2
          rfl
        · simp [lookupKV, h1, h2]
